import Mathlib

/-!
# Verification of the `attuario_ai` crawler core (`src/attuario_ai/crawler.py`)

Shallow embedding of the crawler module: URL normalization (`Crawler._normalize_url`,
which delegates to CPython's `urllib.parse.urlparse`/`geturl`), the robots policy
(`RobotsPolicy`), the fetch engine (`Crawler._fetch`), and the two scheduler loops
(`Crawler._crawl_sequential`, `Crawler._crawl_parallel`).

Modelling conventions:
* Python strings are `List Char` (wrapped in `String` at the interfaces).
* Python `float` delays are `ℚ` (the delays in play — 1.0, 2.0, 0.5 — are exact).
* `Optional[T]` is `Option T`; Python truthiness of `Optional[float]` (`None` and
  `0.0` are falsy) is modelled explicitly where the source relies on it.
* Network traffic is an oracle: a function from the attempt index (for `_fetch`)
  or from the URL (for the scheduler) to the outcome the `requests` session
  produces.  Fallible code paths return the value the Python code stores.
-/

namespace AttuarioAI

/-! ## CPython `urllib.parse` model

`Crawler._normalize_url` calls `urlparse(url)._replace(fragment="").geturl()`.
The functions below model CPython's `urlsplit`/`urlunsplit` (3.12 source).
`urlparse` additionally splits `params` off the path, but `geturl` re-joins the
two with `';'` exactly as split, so working at the `urlsplit` granularity is
behaviour-preserving.  Not modelled: the removal of tab/CR/LF bytes and the
stripping of leading/trailing control characters and spaces (the model covers
URLs without them, on which those steps are the identity), and the `ValueError`
raised for a netloc with an unmatched IPv6 bracket (all URLs considered here
are bracket-free). -/

/-- Characters allowed in a URL scheme after the initial letter
(CPython `scheme_chars = ascii_letters + digits + "+-."`). -/
def isSchemeChar (c : Char) : Bool :=
  c.isAlphanum || c == '+' || c == '-' || c == '.'

/-- Split a list at the first occurrence of `c`, dropping `c` itself;
`none` when `c` does not occur.  Models Python `str.split(c, 1)` /
`str.find(c)` usage in `urlsplit`. -/
def splitFirst (c : Char) : List Char → Option (List Char × List Char)
  | [] => none
  | x :: xs =>
    if x = c then some ([], xs)
    else
      match splitFirst c xs with
      | none => none
      | some (a, b) => some (x :: a, b)

/-- Scheme detection of CPython `urlsplit`: a scheme is present when the first
`':'` is at index `i > 0`, the first character is an ASCII letter and the
remaining characters before the colon are scheme characters; the scheme is
lower-cased.  Returns `(scheme, rest-after-colon)`. -/
def detectScheme (url : List Char) : Option (List Char × List Char) :=
  match splitFirst ':' url with
  | none => none
  | some ([], _) => none
  | some (c :: cs, rest) =>
    if c.isAlpha ∧ cs.all isSchemeChar then
      some ((c :: cs).map Char.toLower, rest)
    else none

/-- A character ending the netloc in CPython `_splitnetloc`: `'/'`, `'?'`, `'#'`. -/
def isNetlocEnd (c : Char) : Bool :=
  c == '/' || c == '?' || c == '#'

/-- CPython `_splitnetloc`: the netloc extends to the first `'/'`, `'?'` or `'#'`. -/
def splitNetloc (l : List Char) : List Char × List Char :=
  (l.takeWhile (fun c => !isNetlocEnd c), l.dropWhile (fun c => !isNetlocEnd c))

/-- The five components CPython's `SplitResult` stores. -/
structure UrlParts where
  scheme : List Char
  netloc : List Char
  path : List Char
  query : List Char
  fragment : List Char
deriving DecidableEq

/-- Stage 1 of CPython `urlsplit`: split off the scheme when one is detected. -/
def schemeSplit (url : List Char) : List Char × List Char :=
  match detectScheme url with
  | some (s, r) => (s, r)
  | none => ([], url)

/-- Stage 2 of CPython `urlsplit`: when the remainder starts with `//`, the
netloc extends to the next `/`, `?` or `#`. -/
def netlocSplit (rest : List Char) : List Char × List Char :=
  if rest.take 2 = ['/', '/'] then splitNetloc (rest.drop 2) else ([], rest)

/-- Stage 3 of CPython `urlsplit`: the fragment is everything after the first
`'#'`. -/
def fragSplit (rest : List Char) : List Char × List Char :=
  match splitFirst '#' rest with
  | some (a, b) => (a, b)
  | none => (rest, [])

/-- Stage 4 of CPython `urlsplit`: the query is everything after the first
`'?'` of what is left. -/
def querySplit (rest : List Char) : List Char × List Char :=
  match splitFirst '?' rest with
  | some (a, b) => (a, b)
  | none => (rest, [])

/-- CPython `urlsplit`: scheme detection, then `'//'`-prefixed netloc, then the
fragment after the first `'#'`, then the query after the first `'?'`. -/
def urlsplitL (url : List Char) : UrlParts :=
  ⟨(schemeSplit url).1,
   (netlocSplit (schemeSplit url).2).1,
   (querySplit (fragSplit (netlocSplit (schemeSplit url).2).2).1).1,
   (querySplit (fragSplit (netlocSplit (schemeSplit url).2).2).1).2,
   (fragSplit (netlocSplit (schemeSplit url).2).2).2⟩

/-- CPython `urlunsplit`. -/
def urlunsplitL (p : UrlParts) : List Char :=
  let url := p.path
  let url :=
    if p.netloc ≠ [] ∨ (url ≠ [] ∧ url.take 2 = ['/', '/']) then
      ['/', '/'] ++ p.netloc ++
        (if url ≠ [] ∧ url.take 1 ≠ ['/'] then '/' :: url else url)
    else url
  let url := if p.scheme ≠ [] then p.scheme ++ ':' :: url else url
  let url := if p.query ≠ [] then url ++ '?' :: p.query else url
  if p.fragment ≠ [] then url ++ '#' :: p.fragment else url

/-- The literal f-string `f"{parsed.scheme}://{parsed.netloc}/"` of
`_normalize_url`'s root-URL comparison. -/
def rootForm (parsed : UrlParts) : List Char :=
  parsed.scheme ++ ':' :: '/' :: '/' :: (parsed.netloc ++ ['/'])

/-- The fragment-stripped re-serialization
`urlparse(url)._replace(fragment="").geturl()` of `_normalize_url`: all
components kept, the fragment replaced by the empty string. -/
def defragged (url : List Char) : List Char :=
  urlunsplitL ⟨(urlsplitL url).scheme, (urlsplitL url).netloc, (urlsplitL url).path,
    (urlsplitL url).query, []⟩

/-- The `Crawler._normalize_url` (crawler.py lines 435-452): drop the fragment,
re-serialize, and strip one trailing `'/'` unless the result is exactly
`f"{parsed.scheme}://{parsed.netloc}/"`. -/
def normalizeL (url : List Char) : List Char :=
  if (defragged url).getLast? = some '/' ∧ defragged url ≠ rootForm (urlsplitL url) then
    (defragged url).dropLast
  else defragged url

/-- The `Crawler._normalize_url` at the `String` interface. -/
def normalizeUrl (url : String) : String :=
  ⟨normalizeL url.data⟩

example : normalizeUrl "http://x/a//" = "http://x/a/" := by decide
example : normalizeUrl "http://x/a/" = "http://x/a" := by decide
example : normalizeUrl "http://x/" = "http://x/" := by decide
example : normalizeUrl "http://x/a#frag" = "http://x/a" := by decide
example : normalizeUrl "HTTP://x/a" = "http://x/a" := by decide
example : normalizeUrl "http://x/a?q=1#f" = "http://x/a?q=1" := by decide

/-! ## Crawl scheduler model

The two loops `Crawler._crawl_sequential` (lines 229-261) and
`Crawler._crawl_parallel` (lines 263-324), abstracted over the network.
The environment gives, per normalized URL: the robots verdict
(`RobotsPolicy.is_allowed`), the `error` field `_fetch` produces, the page
HTML of a successful fetch, and the output of
`_extract_links(result.html, url)` (already-normalized same-domain links; a
Python `set` iterated in an unspecified order, modelled as a list — none of
the properties proved below depend on that order).  In parallel mode,
`as_completed` surfaces batch results in a nondeterministic completion
order; the model processes them in submission order, one admissible
completion order (queue and visited bookkeeping is per-completion either
way).  The worker `try/except` (line 321) never fires in the model because
the modelled `_fetch` is total. -/

/-- Per-URL view of the network and of the robots policy, as the scheduler
consumes them. -/
structure Env where
  robots : String → Bool
  ferror : String → Option String
  fhtml : String → String
  flinks : String → List String

/-- A frontier entry `(url, depth, referer)`. -/
abbrev Entry := String × Nat × Option String

/-- The fields of a yielded `CrawlResult` the scheduler determines
(`status_code` and `fetched_at` are fixed by `_fetch`, modelled separately). -/
structure SchedResult where
  url : String
  error : Option String
  html : String
  referer : Option String
deriving DecidableEq

/-- The `CrawlResult` `_fetch(url, referer)` yields, seen per URL through the
environment: the `error` field and, on success, the page HTML (`_fetch` sets
`html = ""` on every failure path). -/
def mkResult (env : Env) (url : String) (referer : Option String) : SchedResult :=
  ⟨url, env.ferror url, if (env.ferror url).isSome then "" else env.fhtml url, referer⟩

/-- The frontier entries enqueued from one fetched page: every extracted link
that is not yet visited and is robots-allowed, at `depth + 1`, with the
fetched page as referer (both loops share this line verbatim). -/
def newLinks (env : Env) (visited : List String) (depth : Nat) (n : String) :
    List Entry :=
  (env.flinks n).filterMap fun l =>
    if l ∉ visited ∧ env.robots l = true then some (l, depth + 1, some n) else none

/-- The `Crawler._crawl_sequential`: pop, normalize, drop if robots-disallowed,
else mark visited, fetch, yield, and (on success below `max_depth`) enqueue
the not-yet-visited robots-allowed links.  Note the source does NOT check
membership in `visited` at dequeue time in this mode. -/
def crawlSeq (env : Env) (maxPages maxDepth : Nat) :
    List Entry → List String → Nat → List SchedResult
  | [], _, _ => []
  | (url, depth, referer) :: rest, visited, pages =>
    if h : pages < maxPages then
      if env.robots (normalizeUrl url) then
        mkResult env (normalizeUrl url) referer ::
          crawlSeq env maxPages maxDepth
            (if (env.ferror (normalizeUrl url)).isSome ∨ maxDepth ≤ depth then rest
             else
               rest ++ newLinks env (normalizeUrl url :: visited) depth (normalizeUrl url))
            (normalizeUrl url :: visited) (pages + 1)
      else crawlSeq env maxPages maxDepth rest visited pages
    else []
termination_by queue _ pages => (maxPages - pages, queue.length)
decreasing_by
· exact Prod.Lex.left _ _ (by omega)
· exact Prod.Lex.right _ (by simp only [List.length_cons]; omega)

/-- Batch construction of `Crawler._crawl_parallel` (lines 275-288): pop while
the batch is below `max_workers` and the page budget admits it; drop
robots-disallowed entries; add an entry only if its normalized URL is not yet
visited, marking it visited at that moment.  Returns the remaining queue, the
grown visited set, and the batch. -/
def buildBatch (env : Env) (maxPages maxWorkers : Nat) :
    List Entry → List String → Nat → List Entry →
    List Entry × List String × List Entry
  | [], visited, _, batch => ([], visited, batch)
  | (url, depth, referer) :: rest, visited, pages, batch =>
    if batch.length < maxWorkers ∧ pages + batch.length < maxPages then
      if env.robots (normalizeUrl url) then
        if normalizeUrl url ∉ visited then
          buildBatch env maxPages maxWorkers rest (normalizeUrl url :: visited) pages
            (batch ++ [(normalizeUrl url, depth, referer)])
        else buildBatch env maxPages maxWorkers rest visited pages batch
      else buildBatch env maxPages maxWorkers rest visited pages batch
    else ((url, depth, referer) :: rest, visited, batch)

/-- Result consumption of `Crawler._crawl_parallel` (lines 300-320), result
half: one yielded result per batch entry, in completion order.  The source
interleaves yielding with link enqueueing in one `as_completed` loop; the
yielded results do not depend on the queue bookkeeping, so the model states
the two halves separately (`batchQueue` below is the other half). -/
def batchResults (env : Env) : List Entry → List SchedResult
  | [] => []
  | (url, _, referer) :: rest => mkResult env url referer :: batchResults env rest

/-- Result consumption of `Crawler._crawl_parallel` (lines 300-320), queue
half: for each completed entry with no error and depth below `max_depth`, its
not-yet-visited robots-allowed links are appended to the queue.  `visited` is
not mutated during this phase in the source (only `buildBatch` adds to it). -/
def batchQueue (env : Env) (maxDepth : Nat) (visited : List String) :
    List Entry → List Entry → List Entry
  | [], queue => queue
  | (url, depth, _) :: rest, queue =>
    batchQueue env maxDepth visited rest
      (if (env.ferror url).isNone ∧ depth < maxDepth then
        queue ++ newLinks env visited depth url
      else queue)

/-- The `Crawler._crawl_parallel` outer loop: while the queue is nonempty and the
page budget is open, build a batch; stop if it is empty; else process it and
continue with the page counter advanced by the batch size. -/
def crawlPar (env : Env) (maxPages maxDepth maxWorkers : Nat) :
    List Entry → List String → Nat → List SchedResult
  | queue, visited, pages =>
    if h : queue ≠ [] ∧ pages < maxPages then
      match buildBatch env maxPages maxWorkers queue visited pages [] with
      | (queue', visited', batch) =>
        if hbe : batch = [] then []
        else
          batchResults env batch ++
            crawlPar env maxPages maxDepth maxWorkers
              (batchQueue env maxDepth visited' batch queue') visited'
              (pages + batch.length)
    else []
termination_by queue _ pages => maxPages - pages
decreasing_by
simp_wf
have h1 : 0 < batch.length := List.length_pos.mpr hbe
have h2 : pages < maxPages := h.2
omega

/-- The `Crawler.crawl` (lines 203-227): seed the frontier (the base URL alone when
no seeds are given), then dispatch to the parallel loop iff `max_workers > 1`. -/
def crawlRun (env : Env) (maxPages maxDepth maxWorkers : Nat) (baseUrl : String)
    (seeds : Option (List String)) : List SchedResult :=
  let queue : List Entry :=
    match seeds with
    | none => [(baseUrl, 0, none)]
    | some ss => ss.map fun s => (s, 0, none)
  if 1 < maxWorkers then crawlPar env maxPages maxDepth maxWorkers queue [] 0
  else crawlSeq env maxPages maxDepth queue [] 0

/-! ## Fetch engine model

`Crawler._fetch` (lines 326-410): up to `max_retries = 3` attempts, a backoff
sleep of `retry_delay * 2 ** (attempt - 1)` (with `retry_delay = 1.0`) before
every attempt after the first, a politeness sleep of `delay_seconds` after a
success, and four `except` arms.  The network is an oracle from the attempt
index to what `session.get` does on that attempt. -/

/-- Outcome of one `session.get` call inside `_fetch`. -/
inductive AttemptOutcome
  /-- A `Response` arrived with this status and body; `raise_for_status` then
  raises `requests.HTTPError` exactly when `400 ≤ status < 600`. -/
  | response (status : Nat) (body : String)
  /-- The `requests.Timeout` was raised. -/
  | timeout (msg : String)
  /-- The `requests.ConnectionError` was raised. -/
  | connError (msg : String)
  /-- Any other `requests.RequestException`; `respStatus` is the attached
  response's status code when one is attached (`exc.response is not None`),
  else `none`. -/
  | reqError (msg : String) (respStatus : Option Nat)
deriving DecidableEq

/-- What `_fetch` returns and does: the `CrawlResult` fields it computes
(`fetched_at` excluded — wall-clock time is outside the model), the sleeps it
performs in order, and how many `session.get` calls it made. -/
structure FetchOutcome where
  statusCode : Option Nat
  html : String
  error : Option String
  sleeps : List ℚ
  attempts : Nat
deriving DecidableEq

/-- The `requests.Response.ok`, which is also `Response.__bool__`: true exactly
when `raise_for_status` would not raise. -/
def responseOk (status : Nat) : Bool :=
  decide (status < 400) || decide (600 ≤ status)

/-- The message stored by the `HTTPError` arm:
`f"HTTP {status_code}: {exc}"`, where `status_code` was just computed from the
truthiness test `if exc.response` — i.e. from `Response.__bool__ = Response.ok`. -/
def httpErrorMsg (statusCode : Option Nat) : String :=
  "HTTP " ++ (match statusCode with | none => "None" | some s => toString s)
    ++ ": HTTPError"

/-- The retry loop of `_fetch`, one recursive step per `for attempt in
range(max_retries)` iteration; `remaining` counts the iterations left.  The
`remaining = 0` base case is the loop running zero times, unreachable from
`fetchModel` (`max_retries = 3`). -/
def fetchStep (oracle : Nat → AttemptOutcome) (delaySeconds : ℚ) :
    Nat → Nat → List ℚ → FetchOutcome
  | attempt, 0, sleeps => ⟨none, "", none, sleeps, attempt⟩
  | attempt, remaining + 1, sleeps =>
    let sleeps := if 0 < attempt then sleeps ++ [(1 : ℚ) * 2 ^ (attempt - 1)] else sleeps
    match oracle attempt with
    | .response status body =>
      if 400 ≤ status ∧ status < 600 then
        let st := if responseOk status then some status else none
        ⟨st, "", some (httpErrorMsg st), sleeps, attempt + 1⟩
      else
        ⟨some status, body, none, sleeps ++ [delaySeconds], attempt + 1⟩
    | .timeout msg =>
      if remaining = 0 then ⟨none, "", some ("Timeout: " ++ msg), sleeps, attempt + 1⟩
      else fetchStep oracle delaySeconds (attempt + 1) remaining sleeps
    | .connError msg =>
      if remaining = 0 then
        ⟨none, "", some ("Connection error: " ++ msg), sleeps, attempt + 1⟩
      else fetchStep oracle delaySeconds (attempt + 1) remaining sleeps
    | .reqError msg respStatus =>
      if remaining = 0 then ⟨respStatus, "", some msg, sleeps, attempt + 1⟩
      else fetchStep oracle delaySeconds (attempt + 1) remaining sleeps

/-- The `Crawler._fetch` with the source's constants `max_retries = 3`,
`retry_delay = 1.0`. -/
def fetchModel (oracle : Nat → AttemptOutcome) (delaySeconds : ℚ) : FetchOutcome :=
  fetchStep oracle delaySeconds 0 3 []

/-! ## Robots policy and crawler construction model

`RobotsPolicy.__init__` (lines 52-90), `RobotsPolicy.is_allowed` (92-103) and
the relevant part of `Crawler.__init__` (121-197).  The stdlib
`robotparser.RobotFileParser` is abstracted by what the source reads from it
after a successful parse: `crawl_delay(user_agent)`, `crawl_delay("*")` and
`can_fetch`. -/

/-- Outcome of the single `session.get` on `{base}/robots.txt`. -/
inductive RobotsFetch
  /-- The `requests.RequestException` raised (network failure). -/
  | netError (msg : String)
  /-- A response arrived with this status and body. -/
  | response (status : Nat) (body : String)

/-- The parsed-robots.txt facts the source queries from
`robotparser.RobotFileParser` after `parse`. -/
structure RobotsParserModel where
  agentDelay : Option ℚ
  wildcardDelay : Option ℚ
  canFetch : String → Bool

/-- The policy state `RobotsPolicy.__init__` leaves behind. -/
structure RobotsPolicyState where
  available : Bool
  crawlDelay : Option ℚ

/-- Python truthiness of an `Optional[float]`: `None` and `0.0` are falsy. -/
def optFloatTruthy : Option ℚ → Bool
  | none => false
  | some x => decide (x ≠ 0)

/-- Python `a or b` on `Optional[float]` operands, as in
`self._parser.crawl_delay(user_agent) or self._parser.crawl_delay("*")`. -/
def pyOr (a b : Option ℚ) : Option ℚ :=
  if optFloatTruthy a then a else b

/-- ASCII whitespace recognized by Python `str.strip()` (the full Python set
is Unicode whitespace; the bodies considered here are ASCII). -/
def isPySpace (c : Char) : Bool :=
  c == ' ' || c == '\t' || c == '\n' || c == '\r' || c == '\x0b' || c == '\x0c'

/-- Python `body.strip()` as a character list. -/
def stripped (s : String) : List Char :=
  ((s.data.dropWhile isPySpace).reverse.dropWhile isPySpace).reverse

/-- The `RobotsPolicy.__init__`: one GET of robots.txt; on a sub-400 status with a
non-blank body, parse and record the crawl delay with the agent-before-wildcard
`or`-fallback; on a `RequestException`, on status `≥ 400`, or on a blank body,
leave the policy unavailable with no delay.  No path raises. -/
def robotsInit (rfetch : RobotsFetch) (pm : RobotsParserModel) : RobotsPolicyState :=
  match rfetch with
  | .netError _ => ⟨false, none⟩
  | .response status body =>
    if status < 400 ∧ stripped body ≠ [] then
      ⟨true, pyOr pm.agentDelay pm.wildcardDelay⟩
    else ⟨false, none⟩

/-- The `RobotsPolicy.is_allowed`: permissive whenever the policy is unavailable. -/
def isAllowed (st : RobotsPolicyState) (pm : RobotsParserModel) (url : String) : Bool :=
  if st.available then pm.canFetch url else true

/-- Python `base_url.rstrip("/")`. -/
def rstripSlash (s : String) : String :=
  ⟨(s.data.reverse.dropWhile (· == '/')).reverse⟩

/-- The crawler state the constructor establishes (the fields the claims
concern). -/
structure CrawlerState where
  baseUrl : String
  robots : RobotsPolicyState
  delaySeconds : ℚ

/-- The `Crawler.__init__` (the validation, robots construction and delay
adjustment): rstrip the base URL; raise `ValueError` (modelled as
`Except.error`) when its parse lacks a scheme or a netloc; otherwise build the
robots policy and, when its crawl delay is truthy, raise the configured delay
to `max(delay_seconds, crawl_delay)`. -/
def crawlerInit (baseUrl : String) (delaySeconds : ℚ) (rfetch : RobotsFetch)
    (pm : RobotsParserModel) : Except String CrawlerState :=
  let base := rstripSlash baseUrl
  let parsed := urlsplitL base.data
  if parsed.scheme = [] ∨ parsed.netloc = [] then
    .error "Invalid base_url"
  else
    let robots := robotsInit rfetch pm
    let delay :=
      if optFloatTruthy robots.crawlDelay then
        max delaySeconds (robots.crawlDelay.getD 0)
      else delaySeconds
    .ok ⟨base, robots, delay⟩

/-! ## Concrete fixtures used by scenario claims and counterexamples -/

/-- Page A of the two-page cycle scenario. -/
def urlA : String := "http://x/a"

/-- Page B of the two-page cycle scenario. -/
def urlB : String := "http://x/b"

/-- The `A -> B -> A` world: everything robots-allowed, every fetch succeeds,
A links to B and B links to A. -/
def envCycle : Env where
  robots := fun _ => true
  ferror := fun _ => none
  fhtml := fun _ => "<html></html>"
  flinks := fun u => if u = urlA then [urlB] else if u = urlB then [urlA] else []

/-- A world with no links at all and all fetches succeeding. -/
def envPlain : Env where
  robots := fun _ => true
  ferror := fun _ => none
  fhtml := fun _ => ""
  flinks := fun _ => []

/-- One yielding step of the sequential loop consumes one unit of the page
budget, so the result count is bounded by the remaining budget. -/
theorem crawlSeq_length_le (env : Env) (maxPages maxDepth : Nat)
    (queue : List Entry) (visited : List String) (pages : Nat) :
    (crawlSeq env maxPages maxDepth queue visited pages).length ≤ maxPages - pages := by
  induction queue, visited, pages using crawlSeq.induct env maxPages maxDepth with
  | case1 visited pages => simp [crawlSeq]
  | case2 url depth referer rest visited pages hlt hrob ih =>
    rw [crawlSeq]
    simp only [dif_pos hlt, if_pos hrob, List.length_cons]
    exact le_trans (Nat.succ_le_succ ih) (by omega)
  | case3 url depth referer rest visited pages hlt hrob ih =>
    rw [crawlSeq]
    simp only [dif_pos hlt, if_neg hrob]
    exact ih
  | case4 url depth referer rest visited pages hlt =>
    rw [crawlSeq]
    simp [dif_neg hlt]

/-- The `buildBatch` pops entries only from the front: what remains is a suffix of
the input queue. -/
theorem buildBatch_suffix (env : Env) (maxPages maxWorkers : Nat)
    (queue : List Entry) (visited : List String) (pages : Nat) (batch : List Entry) :
    (buildBatch env maxPages maxWorkers queue visited pages batch).1 <:+ queue := by
  induction queue, visited, pages, batch using buildBatch.induct env maxPages maxWorkers with
  | case1 visited pages batch => simp [buildBatch]
  | case2 url depth referer rest visited pages batch hg hrob hnv ih =>
    rw [buildBatch, if_pos hg, if_pos hrob, if_pos hnv]
    exact ih.trans (List.suffix_cons _ _)
  | case3 url depth referer rest visited pages batch hg hrob hnv ih =>
    rw [buildBatch, if_pos hg, if_pos hrob, if_neg hnv]
    exact ih.trans (List.suffix_cons _ _)
  | case4 url depth referer rest visited pages batch hg hrob ih =>
    rw [buildBatch, if_pos hg, if_neg hrob]
    exact ih.trans (List.suffix_cons _ _)
  | case5 url depth referer rest visited pages batch hg =>
    rw [buildBatch, if_neg hg]

/-- Each `buildBatch` step moves at most one queue entry into the batch. -/
theorem buildBatch_length (env : Env) (maxPages maxWorkers : Nat)
    (queue : List Entry) (visited : List String) (pages : Nat) (batch : List Entry) :
    (buildBatch env maxPages maxWorkers queue visited pages batch).1.length +
        (buildBatch env maxPages maxWorkers queue visited pages batch).2.2.length ≤
      queue.length + batch.length := by
  induction queue, visited, pages, batch using buildBatch.induct env maxPages maxWorkers with
  | case1 visited pages batch => simp [buildBatch]
  | case2 url depth referer rest visited pages batch hg hrob hnv ih =>
    rw [buildBatch, if_pos hg, if_pos hrob, if_pos hnv]
    simp only [List.length_append, List.length_cons, List.length_nil] at ih ⊢
    omega
  | case3 url depth referer rest visited pages batch hg hrob hnv ih =>
    rw [buildBatch, if_pos hg, if_pos hrob, if_neg hnv]
    simp only [List.length_cons]
    omega
  | case4 url depth referer rest visited pages batch hg hrob ih =>
    rw [buildBatch, if_pos hg, if_neg hrob]
    simp only [List.length_cons]
    omega
  | case5 url depth referer rest visited pages batch hg =>
    rw [buildBatch, if_neg hg]

/-- The guard `pages_crawled + len(batch) < max_pages` keeps the batch inside
the page budget — unless it never admits an entry and the batch stays as given. -/
theorem buildBatch_budget (env : Env) (maxPages maxWorkers : Nat)
    (queue : List Entry) (visited : List String) (pages : Nat) (batch : List Entry) :
    pages + (buildBatch env maxPages maxWorkers queue visited pages batch).2.2.length ≤
        maxPages ∨
      (buildBatch env maxPages maxWorkers queue visited pages batch).2.2 = batch := by
  induction queue, visited, pages, batch using buildBatch.induct env maxPages maxWorkers with
  | case1 visited pages batch => right; simp [buildBatch]
  | case2 url depth referer rest visited pages batch hg hrob hnv ih =>
    rw [buildBatch, if_pos hg, if_pos hrob, if_pos hnv]
    left
    rcases ih with h | h
    · exact h
    · rw [h]
      simp only [List.length_append, List.length_cons, List.length_nil]
      omega
  | case3 url depth referer rest visited pages batch hg hrob hnv ih =>
    rw [buildBatch, if_pos hg, if_pos hrob, if_neg hnv]
    exact ih
  | case4 url depth referer rest visited pages batch hg hrob ih =>
    rw [buildBatch, if_pos hg, if_neg hrob]
    exact ih
  | case5 url depth referer rest visited pages batch hg =>
    right; rw [buildBatch, if_neg hg]

/-- The `buildBatch` only grows the visited set. -/
theorem buildBatch_visited (env : Env) (maxPages maxWorkers : Nat)
    (queue : List Entry) (visited : List String) (pages : Nat) (batch : List Entry) :
    visited ⊆ (buildBatch env maxPages maxWorkers queue visited pages batch).2.1 := by
  induction queue, visited, pages, batch using buildBatch.induct env maxPages maxWorkers with
  | case1 visited pages batch => simp [buildBatch]
  | case2 url depth referer rest visited pages batch hg hrob hnv ih =>
    rw [buildBatch, if_pos hg, if_pos hrob, if_pos hnv]
    exact fun x hx => ih (List.mem_cons_of_mem _ hx)
  | case3 url depth referer rest visited pages batch hg hrob hnv ih =>
    rw [buildBatch, if_pos hg, if_pos hrob, if_neg hnv]
    exact ih
  | case4 url depth referer rest visited pages batch hg hrob ih =>
    rw [buildBatch, if_pos hg, if_neg hrob]
    exact ih
  | case5 url depth referer rest visited pages batch hg =>
    rw [buildBatch, if_neg hg]
    exact List.Subset.refl _

/-- Every batch entry either was in the batch already, or is a fresh entry:
its URL is some queue entry's URL normalized, was unvisited when batching
began, and is robots-allowed. -/
theorem buildBatch_entries (env : Env) (maxPages maxWorkers : Nat)
    (queue : List Entry) (visited : List String) (pages : Nat) (batch : List Entry) :
    ∀ e ∈ (buildBatch env maxPages maxWorkers queue visited pages batch).2.2,
      e ∈ batch ∨
        (e.1 ∉ visited ∧ env.robots e.1 = true ∧ ∃ q ∈ queue, e.1 = normalizeUrl q.1) := by
  induction queue, visited, pages, batch using buildBatch.induct env maxPages maxWorkers with
  | case1 visited pages batch => simp [buildBatch]
  | case2 url depth referer rest visited pages batch hg hrob hnv ih =>
    rw [buildBatch, if_pos hg, if_pos hrob, if_pos hnv]
    intro e he
    rcases ih e he with h | h
    · rcases List.mem_append.mp h with h' | h'
      · exact Or.inl h'
      · right
        rcases List.mem_singleton.mp h' with rfl
        exact ⟨hnv, hrob, (url, depth, referer), List.mem_cons_self _ _, rfl⟩
    · right
      refine ⟨fun hx => h.1 (List.mem_cons_of_mem _ hx), h.2.1, ?_⟩
      obtain ⟨q, hq, hq2⟩ := h.2.2
      exact ⟨q, List.mem_cons_of_mem _ hq, hq2⟩
  | case3 url depth referer rest visited pages batch hg hrob hnv ih =>
    rw [buildBatch, if_pos hg, if_pos hrob, if_neg hnv]
    intro e he
    rcases ih e he with h | h
    · exact Or.inl h
    · right
      obtain ⟨q, hq, hq2⟩ := h.2.2
      exact ⟨h.1, h.2.1, q, List.mem_cons_of_mem _ hq, hq2⟩
  | case4 url depth referer rest visited pages batch hg hrob ih =>
    rw [buildBatch, if_pos hg, if_neg hrob]
    intro e he
    rcases ih e he with h | h
    · exact Or.inl h
    · right
      obtain ⟨q, hq, hq2⟩ := h.2.2
      exact ⟨h.1, h.2.1, q, List.mem_cons_of_mem _ hq, hq2⟩
  | case5 url depth referer rest visited pages batch hg =>
    rw [buildBatch, if_neg hg]
    exact fun e he => Or.inl he

/-- Marking visited at batching time keeps batch URLs mutually distinct and
recorded in the visited set that `buildBatch` returns. -/
theorem buildBatch_nodup (env : Env) (maxPages maxWorkers : Nat)
    (queue : List Entry) (visited : List String) (pages : Nat) (batch : List Entry) :
    (∀ e ∈ batch, e.1 ∈ visited) → (batch.map Prod.fst).Nodup →
      ((buildBatch env maxPages maxWorkers queue visited pages batch).2.2.map
          Prod.fst).Nodup ∧
        ∀ e ∈ (buildBatch env maxPages maxWorkers queue visited pages batch).2.2,
          e.1 ∈ (buildBatch env maxPages maxWorkers queue visited pages batch).2.1 := by
  induction queue, visited, pages, batch using buildBatch.induct env maxPages maxWorkers with
  | case1 visited pages batch =>
    intro hb hn
    rw [buildBatch]
    exact ⟨hn, hb⟩
  | case2 url depth referer rest visited pages batch hg hrob hnv ih =>
    intro hb hn
    rw [buildBatch, if_pos hg, if_pos hrob, if_pos hnv]
    apply ih
    · intro e he
      rcases List.mem_append.mp he with h' | h'
      · exact List.mem_cons_of_mem _ (hb e h')
      · rcases List.mem_singleton.mp h' with rfl
        exact List.mem_cons_self _ _
    · rw [List.map_append]
      refine List.nodup_append.mpr ⟨hn, List.nodup_singleton _, ?_⟩
      intro a ha ha'
      rcases List.mem_singleton.mp ha' with rfl
      obtain ⟨e, he, he2⟩ := List.mem_map.mp ha
      have he3 : e.1 = normalizeUrl url := he2
      exact hnv (he3 ▸ hb e he)
  | case3 url depth referer rest visited pages batch hg hrob hnv ih =>
    intro hb hn
    rw [buildBatch, if_pos hg, if_pos hrob, if_neg hnv]
    exact ih hb hn
  | case4 url depth referer rest visited pages batch hg hrob ih =>
    intro hb hn
    rw [buildBatch, if_pos hg, if_neg hrob]
    exact ih hb hn
  | case5 url depth referer rest visited pages batch hg =>
    intro hb hn
    rw [buildBatch, if_neg hg]
    exact ⟨hn, hb⟩

/-- The batch results are exactly the batch URLs, in order. -/
theorem batchResults_urls (env : Env) (batch : List Entry) :
    (batchResults env batch).map SchedResult.url = batch.map Prod.fst := by
  induction batch with
  | nil => rfl
  | cons e rest ih =>
    obtain ⟨url, depth, referer⟩ := e
    simp only [batchResults, List.map_cons, ih, mkResult]

/-- One result is yielded per batch entry. -/
theorem batchResults_length (env : Env) (batch : List Entry) :
    (batchResults env batch).length = batch.length := by
  have := congrArg List.length (batchResults_urls env batch)
  simpa using this

/-- Consuming a batch only appends to the queue. -/
theorem batchQueue_extends (env : Env) (maxDepth : Nat) (visited : List String)
    (batch : List Entry) :
    ∀ queue, queue <+: batchQueue env maxDepth visited batch queue := by
  induction batch with
  | nil => intro queue; exact List.prefix_refl _
  | cons e rest ih =>
    intro queue
    obtain ⟨url, depth, referer⟩ := e
    rw [batchQueue]
    refine List.IsPrefix.trans ?_ (ih _)
    by_cases hc : (env.ferror url).isNone ∧ depth < maxDepth
    · rw [if_pos hc]; exact List.prefix_append _ _
    · rw [if_neg hc]

/-- With `max_depth = 0`, no completed entry is ever eligible for link
expansion, so the queue is untouched. -/
theorem batchQueue_depth0 (env : Env) (visited : List String) (batch : List Entry) :
    ∀ queue, batchQueue env 0 visited batch queue = queue := by
  induction batch with
  | nil => intro queue; rfl
  | cons e rest ih =>
    intro queue
    obtain ⟨url, depth, referer⟩ := e
    rw [batchQueue, if_neg (by simp)]
    exact ih _

/-- For every depth ceiling: a completed batch whose entries all sit at or
above the ceiling appends nothing to the queue — the guard
`depth < self.max_depth` fails for each of them, so their outbound links are
never enqueued. -/
theorem batchQueue_ceiling (env : Env) (maxDepth : Nat) :
    ∀ (visited : List String) (batch queue : List Entry),
      (∀ e ∈ batch, maxDepth ≤ e.2.1) →
      batchQueue env maxDepth visited batch queue = queue := by
  intro visited batch
  induction batch with
  | nil => intro queue _; rfl
  | cons e rest ih =>
    intro queue hall
    obtain ⟨url, depth, referer⟩ := e
    have hd : maxDepth ≤ depth := hall (url, depth, referer) (List.mem_cons_self _ _)
    rw [batchQueue, if_neg (fun hc => absurd hc.2 (Nat.not_lt.mpr hd))]
    exact ih _ fun e he => hall e (List.mem_cons_of_mem _ he)

/-- For every depth ceiling: a page dequeued at or above the ceiling is still
fetched and its result yielded, but the continuation queue is exactly the
remaining frontier — its outbound links are not enqueued. -/
theorem crawlSeq_ceiling_step (env : Env) (maxPages maxDepth : Nat)
    (url : String) (depth : Nat) (referer : Option String) (rest : List Entry)
    (visited : List String) (pages : Nat)
    (hd : maxDepth ≤ depth) (hp : pages < maxPages)
    (hrob : env.robots (normalizeUrl url) = true) :
    crawlSeq env maxPages maxDepth ((url, depth, referer) :: rest) visited pages =
      mkResult env (normalizeUrl url) referer ::
        crawlSeq env maxPages maxDepth rest (normalizeUrl url :: visited)
          (pages + 1) := by
  rw [crawlSeq, dif_pos hp, if_pos hrob,
    if_pos (Or.inr hd : (env.ferror (normalizeUrl url)).isSome = true ∨ maxDepth ≤ depth)]

/-- Parallel-mode page budget: each loop turn yields exactly its batch, and
the batch-construction guard keeps the running count within `max_pages`. -/
theorem crawlPar_length_le (env : Env) (maxPages maxDepth maxWorkers : Nat)
    (queue : List Entry) (visited : List String) (pages : Nat) :
    (crawlPar env maxPages maxDepth maxWorkers queue visited pages).length ≤
      maxPages - pages := by
  induction queue, visited, pages using crawlPar.induct env maxPages maxDepth maxWorkers with
  | case1 queue visited pages h queue' visited' heq =>
    rw [crawlPar, dif_pos h, heq]
    simp
  | case2 queue visited pages h queue' visited' batch heq hbe ih =>
    rw [crawlPar, dif_pos h, heq]
    simp only [dif_neg hbe, List.length_append, batchResults_length]
    have hbudget := buildBatch_budget env maxPages maxWorkers queue visited pages []
    rcases hbudget with hb | hb
    · have hb' : pages + batch.length ≤ maxPages := by rw [heq] at hb; exact hb
      omega
    · have hb' : batch = [] := by rw [heq] at hb; exact hb
      exact absurd hb' hbe
  | case3 queue visited pages h =>
    rw [crawlPar, dif_neg h]
    simp

/-- Parallel-mode visited discipline: across a whole parallel crawl, every
yielded URL was outside the starting visited set, is robots-allowed, and no
URL is yielded twice (it is marked visited at dequeue, before dispatch). -/
theorem crawlPar_nodup (env : Env) (maxPages maxDepth maxWorkers : Nat)
    (queue : List Entry) (visited : List String) (pages : Nat) :
    ((crawlPar env maxPages maxDepth maxWorkers queue visited pages).map
        SchedResult.url).Nodup ∧
      ∀ r ∈ crawlPar env maxPages maxDepth maxWorkers queue visited pages,
        r.url ∉ visited ∧ env.robots r.url = true := by
  induction queue, visited, pages using crawlPar.induct env maxPages maxDepth maxWorkers with
  | case1 queue visited pages h queue' visited' heq =>
    rw [crawlPar, dif_pos h, heq]
    simp
  | case3 queue visited pages h =>
    rw [crawlPar, dif_neg h]
    simp
  | case2 queue visited pages h queue' visited' batch heq hbe ih =>
    rw [crawlPar, dif_pos h, heq]
    simp only [dif_neg hbe]
    have hvis := buildBatch_visited env maxPages maxWorkers queue visited pages []
    have hent := buildBatch_entries env maxPages maxWorkers queue visited pages []
    have hnod := buildBatch_nodup env maxPages maxWorkers queue visited pages []
      (by simp) (by simp)
    rw [heq] at hvis hent hnod
    have hvis' : visited ⊆ visited' := hvis
    have hent' : ∀ e ∈ batch, e.1 ∉ visited ∧ env.robots e.1 = true := by
      intro e he
      rcases hent e he with h' | h'
      · exact absurd h' (List.not_mem_nil e)
      · exact ⟨h'.1, h'.2.1⟩
    have hnod1 : (batch.map Prod.fst).Nodup := hnod.1
    have hnod2 : ∀ e ∈ batch, e.1 ∈ visited' := hnod.2
    obtain ⟨ihn, ihm⟩ := ih
    constructor
    · rw [List.map_append, List.nodup_append]
      refine ⟨by rw [batchResults_urls]; exact hnod1, ihn, ?_⟩
      intro a ha ha'
      rw [batchResults_urls] at ha
      obtain ⟨e, he, hea⟩ := List.mem_map.mp ha
      obtain ⟨r, hr, hra⟩ := List.mem_map.mp ha'
      have hnv : r.url ∉ visited' := (ihm r hr).1
      rw [hra] at hnv
      exact hnv (hea ▸ hnod2 e he)
    · intro r hr
      rcases List.mem_append.mp hr with h' | h'
      · have hru : r.url ∈ (batchResults env batch).map SchedResult.url :=
          List.mem_map_of_mem _ h'
        rw [batchResults_urls] at hru
        obtain ⟨e, he, hre⟩ := List.mem_map.mp hru
        exact ⟨hre ▸ (hent' e he).1, hre ▸ (hent' e he).2⟩
      · obtain ⟨hnv, hrob⟩ := ihm r h'
        exact ⟨fun hx => hnv (hvis' hx), hrob⟩

/-- Parallel mode with `max_depth = 0`: at most one result per frontier entry
and every yielded URL is a normalized frontier URL (so no discovered link is
ever fetched). -/
theorem crawlPar_depth0 (env : Env) (maxPages maxWorkers : Nat)
    (queue : List Entry) (visited : List String) (pages : Nat) :
    (crawlPar env maxPages 0 maxWorkers queue visited pages).length ≤ queue.length ∧
      ∀ r ∈ crawlPar env maxPages 0 maxWorkers queue visited pages,
        ∃ q ∈ queue, r.url = normalizeUrl q.1 := by
  induction queue, visited, pages using crawlPar.induct env maxPages 0 maxWorkers with
  | case1 queue visited pages h queue' visited' heq =>
    rw [crawlPar, dif_pos h, heq]
    simp
  | case3 queue visited pages h =>
    rw [crawlPar, dif_neg h]
    simp
  | case2 queue visited pages h queue' visited' batch heq hbe ih =>
    rw [crawlPar, dif_pos h, heq]
    simp only [dif_neg hbe]
    rw [batchQueue_depth0 env visited' batch queue'] at ih
    rw [batchQueue_depth0 env visited' batch queue']
    have hsuf : queue' <:+ queue := by
      have hs := buildBatch_suffix env maxPages maxWorkers queue visited pages []
      rw [heq] at hs
      exact hs
    have hlen : queue'.length + batch.length ≤ queue.length := by
      have hl := buildBatch_length env maxPages maxWorkers queue visited pages []
      rw [heq] at hl
      simpa using hl
    have hent := buildBatch_entries env maxPages maxWorkers queue visited pages []
    rw [heq] at hent
    obtain ⟨ihl, ihm⟩ := ih
    constructor
    · rw [List.length_append, batchResults_length]
      omega
    · intro r hr
      rcases List.mem_append.mp hr with h' | h'
      · have hru : r.url ∈ (batchResults env batch).map SchedResult.url :=
          List.mem_map_of_mem _ h'
        rw [batchResults_urls] at hru
        obtain ⟨e, he, hre⟩ := List.mem_map.mp hru
        rcases hent e he with h'' | h''
        · exact absurd h'' (List.not_mem_nil e)
        · obtain ⟨q, hq, hq2⟩ := h''.2.2
          exact ⟨q, hq, by rw [← hre, hq2]⟩
      · obtain ⟨q, hq, hq2⟩ := ihm r h'
        exact ⟨q, hsuf.subset hq, hq2⟩

/-- Sequential mode with `max_depth = 0`: at most one result per frontier
entry and every yielded URL is a normalized frontier URL. -/
theorem crawlSeq_depth0 (env : Env) (maxPages : Nat)
    (queue : List Entry) (visited : List String) (pages : Nat) :
    (crawlSeq env maxPages 0 queue visited pages).length ≤ queue.length ∧
      ∀ r ∈ crawlSeq env maxPages 0 queue visited pages,
        ∃ q ∈ queue, r.url = normalizeUrl q.1 := by
  induction queue, visited, pages using crawlSeq.induct env maxPages 0 with
  | case1 visited pages => simp [crawlSeq]
  | case2 url depth referer rest visited pages hlt hrob ih =>
    rw [crawlSeq, dif_pos hlt, if_pos hrob]
    simp only [dif_pos (Or.inr (Nat.zero_le depth) :
      (env.ferror (normalizeUrl url)).isSome = true ∨ 0 ≤ depth)] at ih ⊢
    simp only [if_pos (Or.inr (Nat.zero_le depth) :
      (env.ferror (normalizeUrl url)).isSome = true ∨ 0 ≤ depth)] at ih ⊢
    obtain ⟨ihl, ihm⟩ := ih
    constructor
    · simp only [List.length_cons]
      omega
    · intro r hr
      rcases List.mem_cons.mp hr with h' | h'
      · exact ⟨(url, depth, referer), List.mem_cons_self _ _, by rw [h']; rfl⟩
      · obtain ⟨q, hq, hq2⟩ := ihm r h'
        exact ⟨q, List.mem_cons_of_mem _ hq, hq2⟩
  | case3 url depth referer rest visited pages hlt hrob ih =>
    rw [crawlSeq, dif_pos hlt, if_neg hrob]
    obtain ⟨ihl, ihm⟩ := ih
    refine ⟨ihl.trans (by simp), ?_⟩
    intro r hr
    obtain ⟨q, hq, hq2⟩ := ihm r hr
    exact ⟨q, List.mem_cons_of_mem _ hq, hq2⟩
  | case4 url depth referer rest visited pages hlt =>
    rw [crawlSeq, dif_neg hlt]
    simp

/-! ## Character-level facts about `Char.toLower` on the scheme alphabet -/

theorem splitFirst_some {c : Char} {l a b : List Char}
    (h : splitFirst c l = some (a, b)) : l = a ++ c :: b ∧ c ∉ a := by
  induction l generalizing a with
  | nil => exact absurd h (by simp [splitFirst])
  | cons x xs ih =>
    rw [splitFirst] at h
    by_cases hx : x = c
    · rw [if_pos hx] at h
      obtain ⟨rfl, rfl⟩ := Prod.mk.injEq .. ▸ Option.some_inj.mp h
      simp [hx]
    · rw [if_neg hx] at h
      match hs : splitFirst c xs with
      | none => rw [hs] at h; exact absurd h (by simp)
      | some (a', b') =>
        rw [hs] at h
        obtain ⟨ha, rfl⟩ := Prod.mk.injEq .. ▸ Option.some_inj.mp h
        obtain ⟨hxs, hna⟩ := ih hs
        subst ha
        refine ⟨by rw [List.cons_append, hxs], ?_⟩
        intro hm
        rcases List.mem_cons.mp hm with h' | h'
        · exact hx h'.symm
        · exact hna h'

/-- Scheme detection fails on anything starting with a non-alpha character. -/
theorem detectScheme_head_not_alpha {x : Char} {l : List Char}
    (hx : x.isAlpha = false) : detectScheme (x :: l) = none := by
  rw [detectScheme]
  match hs : splitFirst ':' (x :: l) with
  | none => rfl
  | some (a, b) =>
    obtain ⟨heq, hna⟩ := splitFirst_some hs
    match a, heq with
    | [], heq => rfl
    | y :: ys, heq =>
      have hy : y = x := by
        have := congrArg (List.head? ·) heq
        simpa using this.symm
      show (if y.isAlpha = true ∧ ys.all isSchemeChar = true then
          some ((y :: ys).map Char.toLower, b) else none) = none
      rw [if_neg]
      rintro ⟨h1, -⟩
      rw [hy, hx] at h1
      exact Bool.false_ne_true h1

unseal crawlSeq in
/-- Claim C1 (counterexample): The claim that no crawl run ever fetches the same
normalized URL twice fails in sequential mode: `_crawl_sequential` marks the
dequeued URL visited but never checks it against the visited set, so duplicate
seeds (or two pages linking to a common not-yet-dequeued third) are fetched
and yielded twice.  Here the same URL is yielded twice. -/
theorem c1_counterexample :
    (crawlRun envPlain 10 2 1 urlA (some [urlA, urlA])).map SchedResult.url
        = [urlA, urlA] ∧
      ¬ ((crawlRun envPlain 10 2 1 urlA (some [urlA, urlA])).map
          SchedResult.url).Nodup := by
  decide

/-- Claim C1 (amended): In parallel mode (`max_workers > 1`) the claim holds:
the dequeue-time visited check of `_crawl_parallel` (marking visited before
dispatch) guarantees that every yielded URL is robots-allowed and that no
normalized URL is ever fetched or yielded twice, for every link graph and
seed list.  In sequential mode only robots-allowedness survives; the
duplicate-fetch protection is missing (see the counterexample). -/
theorem c1_amended_parallel_no_duplicates (env : Env)
    (maxPages maxDepth maxWorkers : Nat) (baseUrl : String)
    (seeds : Option (List String)) (hmw : 1 < maxWorkers) :
    ((crawlRun env maxPages maxDepth maxWorkers baseUrl seeds).map
        SchedResult.url).Nodup ∧
      ∀ r ∈ crawlRun env maxPages maxDepth maxWorkers baseUrl seeds,
        env.robots r.url = true := by
  simp only [crawlRun]
  rw [if_pos hmw]
  have h := crawlPar_nodup env maxPages maxDepth maxWorkers
    (match seeds with
      | none => [(baseUrl, 0, none)]
      | some ss => ss.map fun s => (s, 0, none)) [] 0
  exact ⟨h.1, fun r hr => (h.2 r hr).2⟩

/-- Witness for C1 (amended) at a concrete parallel configuration. -/
theorem c1_amended_parallel_no_duplicates_witness :
    ((crawlRun envCycle 10 5 4 urlA none).map SchedResult.url).Nodup ∧
      ∀ r ∈ crawlRun envCycle 10 5 4 urlA none, envCycle.robots r.url = true :=
  c1_amended_parallel_no_duplicates envCycle 10 5 4 urlA none (by omega)

/-- Claim C3: In either mode, with any seed list, link graph and robots policy,
the count of yielded results never exceeds `max_pages`: the sequential loop
guard and the parallel batch-construction guard both stop at the budget. -/
theorem c3_results_bounded_by_max_pages (env : Env)
    (maxPages maxDepth maxWorkers : Nat) (baseUrl : String)
    (seeds : Option (List String)) :
    (crawlRun env maxPages maxDepth maxWorkers baseUrl seeds).length ≤ maxPages := by
  simp only [crawlRun]
  by_cases h : 1 < maxWorkers
  · rw [if_pos h]
    simpa using crawlPar_length_le env maxPages maxDepth maxWorkers
      (match seeds with
        | none => [(baseUrl, 0, none)]
        | some ss => ss.map fun s => (s, 0, none)) [] 0
  · rw [if_neg h]
    simpa using crawlSeq_length_le env maxPages maxDepth
      (match seeds with
        | none => [(baseUrl, 0, none)]
        | some ss => ss.map fun s => (s, 0, none)) [] 0

unseal crawlSeq crawlPar in
/-- Claim C6: Two pages linking to each other (`A -> B -> A`), `max_depth = 5`,
`max_pages = 10`: both modes terminate — the crawl functions are total Lean
functions, and this theorem evaluates them to a finite value — and yield
exactly the two pages, each once. -/
theorem c6_cycle_crawl_terminates_two_results :
    (crawlRun envCycle 10 5 1 urlA none).map SchedResult.url = [urlA, urlB] ∧
      (crawlRun envCycle 10 5 4 urlA none).map SchedResult.url = [urlA, urlB] ∧
      (crawlRun envCycle 10 5 1 urlA none).length = 2 ∧
      (crawlRun envCycle 10 5 4 urlA none).length = 2 := by
  exact ⟨by decide, by decide, by decide, by decide⟩

/-- Claim C7: With `max_depth = 0` a crawl yields at most `len(seeds)` results
(at most one for the default single-seed case), and every yielded URL is a
normalized seed — no discovered link is ever fetched — in both modes.  More
generally, for every depth ceiling `max_depth`, pages at depth at or above the
ceiling are fetched but their outbound links are never enqueued or traversed:
sequentially, dequeueing such a page yields its result and continues with
exactly the remaining frontier; in parallel, each batch entry yields a result
regardless of depth, while a batch of at-ceiling entries leaves the queue
untouched. -/
theorem c7_depth_zero_no_link_traversal (env : Env)
    (maxPages maxDepth maxWorkers : Nat) (baseUrl : String) (seeds : List String) :
    (∀ (url : String) (depth : Nat) (referer : Option String) (rest : List Entry)
        (visited : List String) (pages : Nat),
        maxDepth ≤ depth → pages < maxPages →
        env.robots (normalizeUrl url) = true →
        crawlSeq env maxPages maxDepth ((url, depth, referer) :: rest) visited pages =
          mkResult env (normalizeUrl url) referer ::
            crawlSeq env maxPages maxDepth rest (normalizeUrl url :: visited)
              (pages + 1)) ∧
      (∀ (visited : List String) (batch queue : List Entry),
        (∀ e ∈ batch, maxDepth ≤ e.2.1) →
        batchQueue env maxDepth visited batch queue = queue) ∧
      (∀ batch : List Entry, (batchResults env batch).length = batch.length) ∧
      (crawlRun env maxPages 0 maxWorkers baseUrl (some seeds)).length ≤ seeds.length ∧
      (crawlRun env maxPages 0 maxWorkers baseUrl none).length ≤ 1 ∧
      ∀ r ∈ crawlRun env maxPages 0 maxWorkers baseUrl (some seeds),
        r.url ∈ seeds.map normalizeUrl := by
  refine ⟨?_, ?_, ?_, ?_, ?_, ?_⟩
  · intro url depth referer rest visited pages hd hp hrob
    exact crawlSeq_ceiling_step env maxPages maxDepth url depth referer rest
      visited pages hd hp hrob
  · intro visited batch queue hall
    exact batchQueue_ceiling env maxDepth visited batch queue hall
  · intro batch
    exact batchResults_length env batch
  · simp only [crawlRun]
    by_cases h : 1 < maxWorkers
    · rw [if_pos h]
      have := (crawlPar_depth0 env maxPages maxWorkers
        (seeds.map fun s => (s, 0, none)) [] 0).1
      simpa using this
    · rw [if_neg h]
      have := (crawlSeq_depth0 env maxPages (seeds.map fun s => (s, 0, none)) [] 0).1
      simpa using this
  · simp only [crawlRun]
    by_cases h : 1 < maxWorkers
    · rw [if_pos h]
      have := (crawlPar_depth0 env maxPages maxWorkers [(baseUrl, 0, none)] [] 0).1
      simpa using this
    · rw [if_neg h]
      have := (crawlSeq_depth0 env maxPages [(baseUrl, 0, none)] [] 0).1
      simpa using this
  · intro r hr
    simp only [crawlRun] at hr
    by_cases h : 1 < maxWorkers
    · rw [if_pos h] at hr
      obtain ⟨q, hq, hq2⟩ := (crawlPar_depth0 env maxPages maxWorkers
        (seeds.map fun s => (s, 0, none)) [] 0).2 r hr
      obtain ⟨s, hs, rfl⟩ := List.mem_map.mp hq
      exact List.mem_map.mpr ⟨s, hs, hq2.symm⟩
    · rw [if_neg h] at hr
      obtain ⟨q, hq, hq2⟩ := (crawlSeq_depth0 env maxPages
        (seeds.map fun s => (s, 0, none)) [] 0).2 r hr
      obtain ⟨s, hs, rfl⟩ := List.mem_map.mp hq
      exact List.mem_map.mpr ⟨s, hs, hq2.symm⟩

/-- Witness for C7 at a concrete world: depth ceiling 3 with a page dequeued
at depth 3 (sequential step) and a completed depth-3 batch (parallel step),
plus the single-seed `max_depth = 0` crawl. -/
theorem c7_depth_zero_no_link_traversal_witness :
    (crawlSeq envCycle 10 3 [(urlA, 3, none)] [] 0 =
        mkResult envCycle (normalizeUrl urlA) none ::
          crawlSeq envCycle 10 3 [] [normalizeUrl urlA] (0 + 1)) ∧
      (batchQueue envCycle 3 [] [(urlA, 3, none)] [] = []) ∧
      ((batchResults envCycle [(urlA, 3, none)]).length = 1) ∧
      (crawlRun envCycle 10 0 1 urlA (some [urlA])).length ≤ [urlA].length ∧
      (crawlRun envCycle 10 0 1 urlA none).length ≤ 1 ∧
      ∀ r ∈ crawlRun envCycle 10 0 1 urlA (some [urlA]),
        r.url ∈ [urlA].map normalizeUrl := by
  obtain ⟨h1, h2, h3, h4, h5, h6⟩ :=
    c7_depth_zero_no_link_traversal envCycle 10 3 1 urlA [urlA]
  exact ⟨h1 urlA 3 none [] [] 0 (by decide) (by decide) rfl,
    h2 [] [(urlA, 3, none)] [] (by decide), h3 [(urlA, 3, none)], h4, h5, h6⟩

/-! ## Claim theorems for the fetch engine -/

/-- A transient outcome in the spec's taxonomy (§7): timeout, connection
error, or generic transport error — everything except a delivered response. -/
def isTransient : AttemptOutcome → Bool
  | .response _ _ => false
  | _ => true

/-- A network that times out on every attempt. -/
def oracleTimeout : Nat → AttemptOutcome := fun _ => .timeout "read timed out"

/-- A network whose every attempt fails with a generic `RequestException`
carrying a response with status 503. -/
def oracleReqErr503 : Nat → AttemptOutcome :=
  fun _ => .reqError "retries exhausted" (some 503)

/-- A network that answers HTTP 500 on every attempt. -/
def oracle500 : Nat → AttemptOutcome := fun _ => .response 500 "Internal Server Error"

/-- A network that answers status 600 on every attempt. -/
def oracle600 : Nat → AttemptOutcome := fun _ => .response 600 "nonstandard status"

/-- A network that answers HTTP 200 with body `ok` on every attempt. -/
def oracleOk : Nat → AttemptOutcome := fun _ => .response 200 "ok"

/-- Claim C4 (counterexample): When every attempt fails with a generic transport
error that carries a response (the `except RequestException` arm reads
`exc.response.status_code` through an `is not None` check), the returned
status code is that response's status — neither absent nor zero, contrary to
the claim's "absent/zero status code". -/
theorem c4_counterexample :
    (fetchModel oracleReqErr503 1).statusCode = some 503 ∧
      ¬ ((fetchModel oracleReqErr503 1).statusCode = none ∨
          (fetchModel oracleReqErr503 1).statusCode = some 0) := by
  decide

/-- Claim C4 (amended): If all three attempts fail transiently, `_fetch` makes
exactly 3 requests, sleeps `1.0·2⁰` then `1.0·2¹` seconds before the two
retries, records the last descriptive error instead of raising, and the
status code is absent — except that a final generic transport error carrying
a response records that response's status code. -/
theorem c4_amended_retry_budget (oracle : Nat → AttemptOutcome) (delay : ℚ)
    (h : ∀ k < 3, isTransient (oracle k) = true) :
    (fetchModel oracle delay).attempts = 3 ∧
      (fetchModel oracle delay).sleeps = [1, 2] ∧
      (fetchModel oracle delay).error.isSome = true ∧
      (fetchModel oracle delay).statusCode =
        (match oracle 2 with
          | .reqError _ respStatus => respStatus
          | _ => none) := by
  have h0 := h 0 (by omega)
  have h1 := h 1 (by omega)
  have h2 := h 2 (by omega)
  rcases ho0 : oracle 0 with ⟨s0, b0⟩ | m0 | m0 | ⟨m0, st0⟩ <;>
    rw [ho0] at h0 <;>
    rcases ho1 : oracle 1 with ⟨s1, b1⟩ | m1 | m1 | ⟨m1, st1⟩ <;>
    rw [ho1] at h1 <;>
    rcases ho2 : oracle 2 with ⟨s2, b2⟩ | m2 | m2 | ⟨m2, st2⟩ <;>
    rw [ho2] at h2 <;>
    simp [isTransient] at h0 h1 h2 <;>
    simp [fetchModel, fetchStep, ho0, ho1, ho2]

/-- Witness for C4 (amended) on an all-timeouts network. -/
theorem c4_amended_retry_budget_witness :
    (fetchModel oracleTimeout 1).attempts = 3 ∧
      (fetchModel oracleTimeout 1).sleeps = [1, 2] ∧
      (fetchModel oracleTimeout 1).error.isSome = true ∧
      (fetchModel oracleTimeout 1).statusCode =
        (match oracleTimeout 2 with
          | .reqError _ respStatus => respStatus
          | _ => none) :=
  c4_amended_retry_budget oracleTimeout 1 (fun _ _ => rfl)

/-- Claim C5: A fetch that receives an HTTP 500 response makes exactly one
request (no retry — the `HTTPError` arm breaks) and records an error, as the
claim says; but the recorded `status_code` is `None`, not 500: line 385 tests
`if exc.response`, which calls `Response.__bool__ = Response.ok`, and `ok` is
false for every 4xx/5xx response, so the real status is discarded.  The
spec's scenario (`status_code=500`), the `CrawlResult` docstring, and the
`is not None` test used by the neighbouring generic-exception arm all show
the claim is the intent and the truthiness test is the slip. -/
theorem c5_http_error_single_attempt_status_none :
    (fetchModel oracle500 1).attempts = 1 ∧
      (fetchModel oracle500 1).error.isSome = true ∧
      (fetchModel oracle500 1).statusCode = none ∧
      ¬ (fetchModel oracle500 1).statusCode = some 500 := by
  decide

/-- An error-free outcome of the retry loop always comes from a delivered
response whose status escapes `raise_for_status` (outside 400–599); the body
and status of that response are what is recorded. -/
theorem fetchStep_error_none (oracle : Nat → AttemptOutcome) (delay : ℚ) :
    ∀ (r attempt : Nat) (sleeps : List ℚ),
      (fetchStep oracle delay attempt (r + 1) sleeps).error = none →
      ∃ k, attempt ≤ k ∧ k ≤ attempt + r ∧ ∃ s body, oracle k = .response s body ∧
        ¬ (400 ≤ s ∧ s < 600) ∧
        (fetchStep oracle delay attempt (r + 1) sleeps).statusCode = some s ∧
        (fetchStep oracle delay attempt (r + 1) sleeps).html = body := by
  intro r
  induction r with
  | zero =>
    intro attempt sleeps h
    rw [fetchStep] at h ⊢
    rcases ho : oracle attempt with ⟨s, b⟩ | m | m | ⟨m, st⟩
    · rw [ho] at h
      simp only [] at h ⊢
      by_cases hr : 400 ≤ s ∧ s < 600
      · rw [if_pos hr] at h
        simp at h
      · rw [if_neg hr] at h ⊢
        exact ⟨attempt, le_refl _, by omega, s, b, ho, hr, rfl, rfl⟩
    · rw [ho] at h; simp at h
    · rw [ho] at h; simp at h
    · rw [ho] at h; simp at h
  | succ r ih =>
    intro attempt sleeps h
    rw [fetchStep] at h ⊢
    rcases ho : oracle attempt with ⟨s, b⟩ | m | m | ⟨m, st⟩
    · rw [ho] at h
      simp only [] at h ⊢
      by_cases hr : 400 ≤ s ∧ s < 600
      · rw [if_pos hr] at h
        simp at h
      · rw [if_neg hr] at h ⊢
        exact ⟨attempt, le_refl _, by omega, s, b, ho, hr, rfl, rfl⟩
    all_goals
      rw [ho] at h
    all_goals
      simp only [] at h ⊢
    all_goals
      rw [if_neg (Nat.succ_ne_zero r)] at h ⊢
    all_goals
      obtain ⟨k, hk1, hk2, s, body, hok, hrange, hst, hh⟩ := ih (attempt + 1) _ h
      exact ⟨k, by omega, by omega, s, body, hok, hrange, hst, hh⟩

/-- Claim C10 (counterexample): `raise_for_status` raises only for statuses in
400–599, so a delivered status-600 response yields an error-free result whose
status code is not strictly below 400 — against the claim. -/
theorem c10_counterexample :
    (fetchModel oracle600 1).error = none ∧
      (fetchModel oracle600 1).statusCode = some 600 ∧
      ¬ (600 : Nat) < 400 := by
  decide

/-- Claim C10 (amended): If a fetch result has no error then its status code is
present and is a status `raise_for_status` accepts — outside 400–599, though
not necessarily below 400 — and its html is the body of the response some
attempt delivered. -/
theorem c10_amended_error_free_status (oracle : Nat → AttemptOutcome) (delay : ℚ)
    (h : (fetchModel oracle delay).error = none) :
    ∃ k, k < 3 ∧ ∃ s body, oracle k = .response s body ∧
      ¬ (400 ≤ s ∧ s < 600) ∧
      (fetchModel oracle delay).statusCode = some s ∧
      (fetchModel oracle delay).html = body := by
  have h' : (fetchStep oracle delay 0 (2 + 1) []).error = none := h
  obtain ⟨k, hk1, hk2, s, body, hok, hrange, hst, hh⟩ :=
    fetchStep_error_none oracle delay 2 0 [] h'
  exact ⟨k, by omega, s, body, hok, hrange, hst, hh⟩

/-- Witness for C10 (amended) on an all-200 network. -/
theorem c10_amended_error_free_status_witness :
    ∃ k, k < 3 ∧ ∃ s body, oracleOk k = .response s body ∧
      ¬ (400 ≤ s ∧ s < 600) ∧
      (fetchModel oracleOk 1).statusCode = some s ∧
      (fetchModel oracleOk 1).html = body :=
  c10_amended_error_free_status oracleOk 1 (by decide)

/-! ## Claim theorems for the robots policy and construction -/

/-- The robots-fetch failure modes of §4.1: a network failure, a non-success
status, or a blank body. -/
def robotsFetchFailed : RobotsFetch → Prop
  | .netError _ => True
  | .response status body => 400 ≤ status ∨ stripped body = []

/-- Claim C8: If the robots.txt fetch fails — network error, status ≥ 400, or
an empty (blank) body — the policy is unavailable, `is_allowed` answers true
for every URL, and crawler construction still succeeds whenever the base URL
is valid: the failure never aborts construction. -/
theorem c8_robots_failure_permissive (pm : RobotsParserModel) (rfetch : RobotsFetch)
    (delay : ℚ) (baseUrl : String) (hfail : robotsFetchFailed rfetch)
    (hvalid : (urlsplitL (rstripSlash baseUrl).data).scheme ≠ [] ∧
      (urlsplitL (rstripSlash baseUrl).data).netloc ≠ []) :
    (robotsInit rfetch pm).available = false ∧
      (∀ url, isAllowed (robotsInit rfetch pm) pm url = true) ∧
      ∃ st, crawlerInit baseUrl delay rfetch pm = .ok st := by
  have hrob : (robotsInit rfetch pm).available = false := by
    match rfetch with
    | .netError m => rfl
    | .response status body =>
      rw [robotsInit, if_neg]
      rintro ⟨h1, h2⟩
      rcases hfail with hf | hf
      · omega
      · exact h2 hf
  refine ⟨hrob, ?_, ?_⟩
  · intro url
    rw [isAllowed, if_neg]
    intro htrue
    rw [hrob] at htrue
    exact Bool.false_ne_true htrue
  · simp only [crawlerInit]
    rw [if_neg (not_or.mpr ⟨hvalid.1, hvalid.2⟩)]
    exact ⟨_, rfl⟩

/-- Witness for C8: robots.txt answers 404 on a crawler with a valid base URL. -/
theorem c8_robots_failure_permissive_witness :
    (robotsInit (.response 404 "not found") ⟨none, none, fun _ => false⟩).available
        = false ∧
      (∀ url, isAllowed (robotsInit (.response 404 "not found")
          ⟨none, none, fun _ => false⟩) ⟨none, none, fun _ => false⟩ url = true) ∧
      ∃ st, crawlerInit "http://example.com/" (1 / 2) (.response 404 "not found")
        ⟨none, none, fun _ => false⟩ = .ok st :=
  c8_robots_failure_permissive ⟨none, none, fun _ => false⟩ (.response 404 "not found")
    (1 / 2) "http://example.com/" (Or.inl (by omega)) (by refine ⟨?_, ?_⟩ <;> decide)

/-- Claim C9 (counterexample): A robots.txt whose parse yields a `Crawl-delay`
of exactly 0 for the configured agent and 5 for the wildcard: the claim says
the policy's delay is the agent's (0), but `crawl_delay(ua) or
crawl_delay("*")` treats the agent's 0.0 as falsy and takes the wildcard's 5. -/
theorem c9_counterexample :
    (robotsInit (.response 200 "User-agent: *")
        ⟨some 0, some 5, fun _ => true⟩).crawlDelay = some 5 ∧
      (robotsInit (.response 200 "User-agent: *")
        ⟨some 0, some 5, fun _ => true⟩).crawlDelay ≠ some 0 := by
  decide

/-- Python's `or`-fallback written out: the agent delay wins exactly when it
is present and nonzero. -/
theorem pyOr_eq (a w : Option ℚ) :
    pyOr a w = if a ≠ none ∧ a ≠ some 0 then a else w := by
  rcases a with _ | x
  · simp [pyOr, optFloatTruthy]
  · by_cases hx : x = 0
    · subst hx; simp [pyOr, optFloatTruthy]
    · simp [pyOr, optFloatTruthy, hx]

/-- The delay adjustment of `Crawler.__init__` equals the claimed
`max(configured, crawl_delay or 0)` whenever the configured delay is
nonnegative. -/
theorem effectiveDelay_eq (configured : ℚ) (hconf : 0 ≤ configured) (cd : Option ℚ) :
    (if optFloatTruthy cd then max configured (cd.getD 0) else configured) =
      max configured (cd.getD 0) := by
  rcases cd with _ | x
  · simp [optFloatTruthy]
    exact hconf
  · by_cases hx : x = 0
    · subst hx
      simp [optFloatTruthy]
      exact hconf
    · simp [optFloatTruthy, hx]

/-- Claim C9 (amended): After a successful robots.txt parse, the policy's
`crawl_delay` is the configured agent's delay when that is present and
nonzero, and otherwise the wildcard agent's delay — a zero agent delay also
falls back, because Python's `or` treats `0.0` as falsy.  Given a nonnegative
configured delay, the crawler's effective inter-request delay equals
`max(configured, crawl_delay or 0)` as claimed. -/
theorem c9_amended_crawl_delay (pm : RobotsParserModel) (status : Nat) (body : String)
    (hok : status < 400) (hbody : stripped body ≠ []) (configured : ℚ)
    (hconf : 0 ≤ configured) (baseUrl : String) :
    (robotsInit (.response status body) pm).crawlDelay =
        (if pm.agentDelay ≠ none ∧ pm.agentDelay ≠ some 0 then pm.agentDelay
          else pm.wildcardDelay) ∧
      ∀ st, crawlerInit baseUrl configured (.response status body) pm = .ok st →
        st.delaySeconds =
          max configured ((robotsInit (.response status body) pm).crawlDelay.getD 0) := by
  have hinit : robotsInit (.response status body) pm =
      ⟨true, pyOr pm.agentDelay pm.wildcardDelay⟩ := by
    rw [robotsInit, if_pos ⟨hok, hbody⟩]
  constructor
  · rw [hinit]
    exact pyOr_eq pm.agentDelay pm.wildcardDelay
  · intro st hst
    simp only [crawlerInit] at hst
    by_cases hv : (urlsplitL (rstripSlash baseUrl).data).scheme = [] ∨
        (urlsplitL (rstripSlash baseUrl).data).netloc = []
    · rw [if_pos hv] at hst
      exact absurd hst (by simp)
    · rw [if_neg hv] at hst
      injection hst with hst'
      rw [← hst']
      exact effectiveDelay_eq configured hconf _

/-- Witness for C9 (amended) at a concrete parse result and configuration. -/
theorem c9_amended_crawl_delay_witness :
    ((robotsInit (.response 200 "User-agent: *")
        ⟨some 0, some 5, fun _ => true⟩).crawlDelay =
      (if (some (0 : ℚ)) ≠ none ∧ (some (0 : ℚ)) ≠ some 0 then some (0 : ℚ)
        else some 5)) ∧
      ∀ st, crawlerInit "http://example.com" (1 / 2) (.response 200 "User-agent: *")
          ⟨some 0, some 5, fun _ => true⟩ = .ok st →
        st.delaySeconds = max (1 / 2)
          ((robotsInit (.response 200 "User-agent: *")
            ⟨some 0, some 5, fun _ => true⟩).crawlDelay.getD 0) :=
  c9_amended_crawl_delay ⟨some 0, some 5, fun _ => true⟩ 200 "User-agent: *"
    (by omega) (by decide) (1 / 2) (by norm_num) "http://example.com"

end AttuarioAI
